import Mathlib

/-!
# pt-rss: the retry-bounded feed poller of `main.go`

A shallow embedding of `src/pt-rss/main.go` and the properties of its
counter store, eligibility filter, download step and timeout selection.

Conventions of the embedding

* A Go `string` is a finite sequence of bytes: `GoString := List Nat`, every
  element standing for one byte (0..255).  ASCII literals are written with
  `bytes "..."`.
* A Go `int` is a 64 bit signed integer, embedded in `Int`; the one arithmetic
  statement of the program (`count++`) wraps with `wrapInt64`.
* The world outside the program (HTTP transport, file system, feed parser,
  directory creation) is passed in as explicit outcomes.
* The `urls` table is the list of its rows in rowid order.  SQL statements are
  assumed to execute without an I/O error (the program panics otherwise).
-/

namespace PtRss

/-! ## Go strings -/

/-- A Go string: a sequence of bytes. -/
abbrev GoString := List Nat

/-- The bytes of an ASCII literal. -/
def bytes (s : String) : GoString := s.toList.map Char.toNat

/-- Table `asciiSpace` of package `strings`: tab, newline, vertical tab, form feed,
carriage return and space. -/
def asciiSpace (c : Nat) : Bool :=
  c == 9 || c == 10 || c == 11 || c == 12 || c == 13 || c == 32

/-- Constant `utf8.RuneError`, U+FFFD. -/
def RuneError : Nat := 0xFFFD

/-- Function `unicode.IsSpace`: the Latin-1 spaces and the `White_Space` table above Latin-1. -/
def IsSpace (r : Nat) : Bool :=
  if r ≤ 0xFF then
    r == 9 || r == 10 || r == 11 || r == 12 || r == 13 || r == 32 || r == 0x85 || r == 0xA0
  else
    r == 0x1680 || (0x2000 ≤ r && r ≤ 0x200A) || r == 0x2028 || r == 0x2029
      || r == 0x202F || r == 0x205F || r == 0x3000

/-- Continuation byte test of package `utf8` (`locb ≤ b ≤ hicb`). -/
def isCont (b : Nat) : Bool := 0x80 ≤ b && b ≤ 0xBF

/-- Table `first` with `acceptRanges` of package `utf8`: for a leading byte the
encoded size and the accepted range of the second byte; `none` for an invalid
leading byte.  ASCII bytes are handled before the table is consulted. -/
def firstInfo (b : Nat) : Option (Nat × Nat × Nat) :=
  if 0xC2 ≤ b ∧ b ≤ 0xDF then some (2, 0x80, 0xBF)
  else if b = 0xE0 then some (3, 0xA0, 0xBF)
  else if 0xE1 ≤ b ∧ b ≤ 0xEC then some (3, 0x80, 0xBF)
  else if b = 0xED then some (3, 0x80, 0x9F)
  else if 0xEE ≤ b ∧ b ≤ 0xEF then some (3, 0x80, 0xBF)
  else if b = 0xF0 then some (4, 0x90, 0xBF)
  else if 0xF1 ≤ b ∧ b ≤ 0xF3 then some (4, 0x80, 0xBF)
  else if b = 0xF4 then some (4, 0x80, 0x8F)
  else none

/-- Function `utf8.DecodeRuneInString`: the first rune of `s` and its width in bytes;
`(RuneError, 0)` for the empty string and `(RuneError, 1)` for an invalid encoding. -/
def DecodeRuneInString (s : GoString) : Nat × Nat :=
  match s with
  | [] => (RuneError, 0)
  | s0 :: rest =>
    if s0 < 0x80 then (s0, 1)
    else
      match firstInfo s0 with
      | none => (RuneError, 1)
      | some (sz, lo, hi) =>
        if rest.length + 1 < sz then (RuneError, 1)
        else
          match rest with
          | [] => (RuneError, 1)
          | s1 :: rest1 =>
            if s1 < lo ∨ hi < s1 then (RuneError, 1)
            else if sz ≤ 2 then ((s0 % 0x20) * 0x40 + s1 % 0x40, 2)
            else
              match rest1 with
              | [] => (RuneError, 1)
              | s2 :: rest2 =>
                if !isCont s2 then (RuneError, 1)
                else if sz ≤ 3 then
                  ((s0 % 0x10) * 0x1000 + (s1 % 0x40) * 0x40 + s2 % 0x40, 3)
                else
                  match rest2 with
                  | [] => (RuneError, 1)
                  | s3 :: _ =>
                    if !isCont s3 then (RuneError, 1)
                    else
                      ((s0 % 0x08) * 0x40000 + (s1 % 0x40) * 0x1000
                        + (s2 % 0x40) * 0x40 + s3 % 0x40, 4)

/-- Function `utf8.RuneStart`: the byte is not a continuation byte. -/
def RuneStart (b : Nat) : Bool := !(isCont b)

/-- The backward scan of `utf8.DecodeLastRuneInString`: from index `start`, at most
`steps` further positions towards the front, stopping at a rune start. -/
def scanBack (s : GoString) : Nat → Nat → Nat
  | 0, start => start
  | steps + 1, start =>
    if RuneStart (s.getD start 0) then start
    else
      match start with
      | 0 => 0
      | start1 + 1 => scanBack s steps start1

/-- Function `utf8.DecodeLastRuneInString`: the last rune of `s` and its width. -/
def DecodeLastRuneInString (s : GoString) : Nat × Nat :=
  match s.getLast? with
  | none => (RuneError, 0)
  | some last =>
    if last < 0x80 then (last, 1)
    else
      let e := s.length
      let lim := e - 4
      -- `for start--; start >= lim; start--`: positions `e-2` down to `lim`
      let start :=
        if e - 1 ≤ lim then e - 1 - 1
        else
          let stop := scanBack s (e - 1 - lim) (e - 2)
          stop
      let r := DecodeRuneInString (s.drop start)
      if start + r.2 ≠ e then (RuneError, 1) else r

/-- Function `strings.TrimLeftFunc(s, unicode.IsSpace)`: drops leading runes that are
spaces.  Every step consumes at least one byte, so `fuel = len(s)` is enough. -/
def trimLeftSpaceFuel : Nat → GoString → GoString
  | 0, s => s
  | _ + 1, [] => []
  | fuel + 1, c :: cs =>
    let r := DecodeRuneInString (c :: cs)
    if IsSpace r.1 then trimLeftSpaceFuel fuel ((c :: cs).drop r.2) else c :: cs

/-- Function `strings.TrimLeftFunc(s, unicode.IsSpace)`. -/
def TrimLeftSpace (s : GoString) : GoString := trimLeftSpaceFuel s.length s

/-- Function `lastIndexFunc(s, unicode.IsSpace, false)` of package `strings`: the byte
index of the last rune that is not a space, `none` for the result -1. -/
def lastIndexNotSpace : Nat → GoString → Option Nat
  | 0, _ => none
  | fuel + 1, p =>
    if p.length = 0 then none
    else
      let r := DecodeLastRuneInString p
      let i := p.length - r.2
      if !IsSpace r.1 then some i else lastIndexNotSpace fuel (p.take i)

/-- Function `strings.TrimRightFunc(s, unicode.IsSpace)`. -/
def TrimRightSpace (s : GoString) : GoString :=
  match lastIndexNotSpace s.length s with
  | none => []
  | some i =>
    if 0x80 ≤ s.getD i 0 then s.take (i + (DecodeRuneInString (s.drop i)).2)
    else s.take (i + 1)

/-- The second loop of `strings.TrimSpace`, run on the reversed string: it drops
trailing ASCII spaces and hands over to `TrimRightFunc` at a non-ASCII byte. -/
def trimSpaceStop : GoString → GoString
  | [] => []
  | c :: cs =>
    if 0x80 ≤ c then TrimRightSpace (c :: cs).reverse
    else if asciiSpace c then trimSpaceStop cs
    else (c :: cs).reverse

/-- Function `strings.TrimSpace`: the first loop drops leading ASCII spaces and hands
over to `TrimFunc(s[start:], unicode.IsSpace)` at a non-ASCII byte; then the
second loop trims the end. -/
def TrimSpace : GoString → GoString
  | [] => []
  | c :: cs =>
    if 0x80 ≤ c then TrimRightSpace (TrimLeftSpace (c :: cs))
    else if asciiSpace c then TrimSpace cs
    else trimSpaceStop (c :: cs).reverse

/-- Function `strings.HasPrefix`. -/
def HasPrefix (s pre : GoString) : Bool := pre.isPrefixOf s

/-- Function `strings.TrimPrefix`. -/
def TrimPrefix (s pre : GoString) : GoString :=
  if HasPrefix s pre then s.drop pre.length else s

/-- Function `strings.Split(s, ";")`: the substrings between the semicolons (byte 59);
one more piece than there are semicolons. -/
def Split : GoString → List GoString
  | [] => [[]]
  | c :: cs =>
    if c = 59 then [] :: Split cs
    else
      match Split cs with
      | [] => [[c]]
      | piece :: pieces => (c :: piece) :: pieces

/-- Function `ishex` of package `net/url`. -/
def ishex (c : Nat) : Bool :=
  (48 ≤ c && c ≤ 57) || (97 ≤ c && c ≤ 102) || (65 ≤ c && c ≤ 70)

/-- Function `unhex` of package `net/url`. -/
def unhex (c : Nat) : Nat :=
  if 48 ≤ c ∧ c ≤ 57 then c - 48
  else if 97 ≤ c ∧ c ≤ 102 then c - 97 + 10
  else if 65 ≤ c ∧ c ≤ 70 then c - 65 + 10
  else 0

/-- Function `url.QueryUnescape`: `%XY` becomes the byte `XY`, `+` becomes a space;
`none` stands for the `EscapeError` returned when a `%` is not followed by two
hexadecimal digits. -/
def QueryUnescape : GoString → Option GoString
  | [] => some []
  | 37 :: a :: b :: rest =>
    if ishex a && ishex b then
      (QueryUnescape rest).map (fun t => (unhex a * 16 + unhex b) :: t)
    else none
  | 37 :: _ => none
  | 43 :: rest => (QueryUnescape rest).map (fun t => 32 :: t)
  | c :: rest => (QueryUnescape rest).map (fun t => c :: t)

/-! ## `getFileName` and `handleLink` -/

/-- The loop of `getFileName` over the pieces of `strings.Split(value, ";")`. -/
def getFileNameLoop : List GoString → GoString
  | [] => []
  | str :: strs =>
    let str := TrimSpace str
    if HasPrefix str (bytes "filename=") then TrimPrefix str (bytes "filename=")
    else getFileNameLoop strs

/-- Function `getFileName` of `main.go`. -/
def getFileName (value : GoString) : GoString := getFileNameLoop (Split value)

/-- Modelled from the spec: type `config.Site` (package `config` is not among the
sources), the feed descriptor `{ name, feed_url, poll_interval_seconds,
download_directory }` with the field names `main.go` uses. -/
structure Site where
  Name : GoString
  Rss : GoString
  Interval : Int
  DownloadDir : GoString

/-- Outcome of `httpClient.Get(link)` followed by `ioutil.ReadAll(rsp.Body)`.
`failed` is `err != nil` from `Get` (a transport error or timeout; the Go client
returns no error for a response with a non-2xx status).  A response carries its
status code, the value of `rsp.Header.Get("Content-Disposition")` and the body,
`none` when `ReadAll` returns an error. -/
inductive GetResult where
  | failed
  | response (StatusCode : Nat) (ContentDisposition : GoString) (Body : Option GoString)

/-- The world as one call of `handleLink` meets it: the outcome of the fetch, and for
`ioutil.WriteFile(path.Join(dir, filename), data, 0644)` whether it succeeds. -/
structure LinkEnv where
  get : GetResult
  writeFile : GoString → GoString → GoString → Bool

/-- The three places where `handleLink` returns a non-nil error. -/
inductive LinkError where
  | download
  | readResponse
  | saveFile
  deriving DecidableEq, Repr

/-- The arguments of the `ioutil.WriteFile` call of `handleLink`: the directory and the
file name joined by `path.Join`, and the bytes written. -/
structure WriteCall where
  dir : GoString
  filename : GoString
  data : GoString
  deriving DecidableEq, Repr

/-- What a call of `handleLink` returns (`err`, `none` for nil) and the `WriteFile`
call it made, if it got that far. -/
structure LinkResult where
  err : Option LinkError
  writeCall : Option WriteCall
  deriving DecidableEq, Repr

/-- Lines 175 to 179 of `handleLink`: the header value after `url.QueryUnescape`, or
the raw value when unescaping fails. -/
def unescapeOrRaw (tmpVal : GoString) : GoString :=
  match QueryUnescape tmpVal with
  | some value => value
  | none => tmpVal

/-- Function `handleLink` of `main.go`.  The status code of the response is never
inspected. -/
def handleLink (site : Site) (_link : GoString) (env : LinkEnv) : LinkResult :=
  match env.get with
  | GetResult.failed => ⟨some LinkError.download, none⟩
  | GetResult.response _ _ none => ⟨some LinkError.readResponse, none⟩
  | GetResult.response _ tmpVal (some data) =>
    let value := unescapeOrRaw tmpVal
    let filename := getFileName value
    if env.writeFile site.DownloadDir filename data then
      ⟨none, some ⟨site.DownloadDir, filename, data⟩⟩
    else
      ⟨some LinkError.saveFile, some ⟨site.DownloadDir, filename, data⟩⟩

/-! ## The counter store -/

/-- Constant `LINK_RETRY_TIMES`. -/
def LINK_RETRY_TIMES : Int := 3

/-- A row of table `urls`.  The columns `id` and `update_time` are written by SQLite
itself and read by no statement of the program; the position of a row in the
table stands for its rowid (`AUTOINCREMENT`: a new row goes last). -/
structure Row where
  link : GoString
  download_count : Int
  deriving DecidableEq, Repr

/-- Table `urls`, rows in rowid order. -/
abbrev DB := List Row

/-- Statement `SELECT download_count FROM urls WHERE link=?` under `QueryRow`: the
first matching row, `none` for `sql.ErrNoRows`. -/
def queryCount (db : DB) (link : GoString) : Option Int :=
  (db.find? (fun r => decide (r.link = link))).map (fun r => r.download_count)

/-- Statement `DELETE FROM urls WHERE link=?`. -/
def execDelete (db : DB) (link : GoString) : DB :=
  db.filter (fun r => !decide (r.link = link))

/-- Statement `INSERT INTO urls(link, download_count) VALUES(?,?)`. -/
def execInsert (db : DB) (link : GoString) (count : Int) : DB :=
  db ++ [⟨link, count⟩]

/-- Function `getLinkCount` of `main.go`: `count` stays 0 on `sql.ErrNoRows`. -/
def getLinkCount (db : DB) (link : GoString) : Int :=
  match queryCount db link with
  | none => 0
  | some count => count

/-- Function `setLinkCount` of `main.go`: delete, then insert. -/
def setLinkCount (db : DB) (link : GoString) (count : Int) : DB :=
  execInsert (execDelete db link) link count

/-- Arithmetic of a Go `int` (64 bit, two's complement). -/
def wrapInt64 (x : Int) : Int := (x + 9223372036854775808) % 18446744073709551616 - 9223372036854775808

/-- Function `incrLinkCount` of `main.go`. -/
def incrLinkCount (db : DB) (link : GoString) : DB :=
  let count := getLinkCount db link
  let count := wrapInt64 (count + 1)
  setLinkCount db link count

/-- The rows of the table that belong to `link`. -/
def rowsOf (db : DB) (link : GoString) : List Row :=
  db.filter (fun r => decide (r.link = link))

/-! ## `main`: the timeout -/

/-- Lines 34 to 37 of `main`: the HTTP timeout in seconds for the configured
`c.Timeout`. -/
def timeout (cTimeout : Int) : Int :=
  if 0 < cTimeout ∧ cTimeout < 3600 then cTimeout else 30

/-! ## `handleSite` -/

/-- Outcome of fetching and parsing the feed in one turn of the loop: one of the three
`continue` branches, or the links of `r.GetLinks()`. -/
inductive FeedResult where
  | fetchError
  | readError
  | parseError
  | links (ls : List GoString)

/-- One turn of the polling loop as the world presents it: the feed, and for the
attempt number `i` of the turn on `link` the world `env i link` that `handleLink`
meets. -/
structure Cycle where
  feed : FeedResult
  env : Nat → GoString → LinkEnv

/-- The observable steps of `handleSite`. -/
inductive Event where
  | mkdirAll (ok : Bool)
  | finish
  | sleep (seconds : Int)
  | fetchRss
  | getLinkCount (link : GoString)
  | handleLink (link : GoString)
  | incrLinkCount (link : GoString)
  | setLinkCount (link : GoString) (count : Int)
  deriving DecidableEq, Repr

/-- A trace: each step with the store as it is right after the step. -/
abbrev Trace := List (Event × DB)

/-- Lines 112 to 117 of `handleSite`: the loop that builds `newLinks`. -/
def newLinksLoop (db : DB) : List GoString → List GoString → List GoString
  | [], newLinks => newLinks
  | link :: links, newLinks =>
    if getLinkCount db link < LINK_RETRY_TIMES then
      newLinksLoop db links (newLinks ++ [link])
    else
      newLinksLoop db links newLinks

/-- The value of `newLinks` after the loop of lines 112 to 117. -/
def newLinks (db : DB) (links : List GoString) : List GoString :=
  newLinksLoop db links []

/-- Lines 119 to 125 of `handleSite`: the loop over `newLinks`, from attempt number `i`
on.  Returns the store after the loop and the trace of the loop. -/
def downloadLoop (site : Site) (env : Nat → GoString → LinkEnv) :
    Nat → DB → List GoString → DB × Trace
  | _, db, [] => (db, [])
  | i, db, link :: rest =>
    match (handleLink site link (env i link)).err with
    | some _ =>
      let db1 := incrLinkCount db link
      let r := downloadLoop site env (i + 1) db1 rest
      (r.1, (Event.handleLink link, db) :: (Event.incrLinkCount link, db1) :: r.2)
    | none =>
      let db1 := setLinkCount db link LINK_RETRY_TIMES
      let r := downloadLoop site env (i + 1) db1 rest
      (r.1, (Event.handleLink link, db)
        :: (Event.setLinkCount link LINK_RETRY_TIMES, db1) :: r.2)

/-- One turn of the `for` loop of `handleSite` (lines 86 to 126). -/
def pollCycle (site : Site) (firstTurn : Bool) (db : DB) (c : Cycle) : DB × Trace :=
  let t0 : Trace := if firstTurn then [] else [(Event.sleep site.Interval, db)]
  match c.feed with
  | FeedResult.links links =>
    let r := downloadLoop site c.env 0 db (newLinks db links)
    (r.1, t0 ++ (Event.fetchRss, db) :: links.map (fun l => (Event.getLinkCount l, db)) ++ r.2)
  | _ => (db, t0 ++ [(Event.fetchRss, db)])

/-- The `for` loop of `handleSite`, run for the turns in `cycles` (the loop itself never
ends; a run of the program is described by its finite prefixes). -/
def handleSiteLoop (site : Site) : Bool → DB → List Cycle → DB × Trace
  | _, db, [] => (db, [])
  | firstTurn, db, c :: cs =>
    let r1 := pollCycle site firstTurn db c
    let r2 := handleSiteLoop site false r1.1 cs
    (r2.1, r1.2 ++ r2.2)

/-- Function `handleSite` of `main.go`; `mkdirOk` says whether `os.MkdirAll` of the
download directory succeeds.  After `finish <- 1` there is no `return`: control
falls through to the loop. -/
def handleSite (site : Site) (mkdirOk : Bool) (db : DB) (cycles : List Cycle) : DB × Trace :=
  let t0 : Trace :=
    if mkdirOk then [(Event.mkdirAll true, db)]
    else [(Event.mkdirAll false, db), (Event.finish, db)]
  let r := handleSiteLoop site true db cycles
  (r.1, t0 ++ r.2)

/-- The store after `handleSite` has run the turns `cycles`. -/
def storeAfter (site : Site) (db : DB) (cycles : List Cycle) : DB :=
  (handleSiteLoop site true db cycles).1

/-! ## Two pollers on one store -/

/-- A counter update one poller applies: `incrLinkCount` or `setLinkCount` with a count. -/
inductive Update where
  | incr
  | set (count : Int)
  deriving DecidableEq, Repr

/-- A poller in the middle of an update: the update, the number of SQL statements
already executed and the local variable `count`. -/
structure Poller where
  op : Update
  pc : Nat
  count : Int
  deriving DecidableEq, Repr

/-- A poller about to start the update. -/
def Poller.start (u : Update) : Poller :=
  match u with
  | Update.incr => ⟨u, 0, 0⟩
  | Update.set n => ⟨u, 0, n⟩

/-- Number of SQL statements of an update: `SELECT`, `DELETE`, `INSERT` for
`incrLinkCount`; `DELETE`, `INSERT` for `setLinkCount`. -/
def Update.steps : Update → Nat
  | Update.incr => 3
  | Update.set _ => 2

/-- The next SQL statement of a poller, executed on the store. -/
def stepPoller (link : GoString) (db : DB) (p : Poller) : DB × Poller :=
  match p.op, p.pc with
  | Update.incr, 0 => (db, { p with pc := 1, count := wrapInt64 (getLinkCount db link + 1) })
  | Update.incr, 1 => (execDelete db link, { p with pc := 2 })
  | Update.incr, 2 => (execInsert db link p.count, { p with pc := 3 })
  | Update.set _, 0 => (execDelete db link, { p with pc := 1 })
  | Update.set _, 1 => (execInsert db link p.count, { p with pc := 2 })
  | _, _ => (db, p)

/-- Runs two pollers under a schedule: `false` lets the first poller execute its next
statement, `true` the second. -/
def runSchedule (link : GoString) : DB → Poller → Poller → List Bool → DB × Poller × Poller
  | db, p1, p2, [] => (db, p1, p2)
  | db, p1, p2, false :: sched =>
    let r := stepPoller link db p1
    runSchedule link r.1 r.2 p2 sched
  | db, p1, p2, true :: sched =>
    let r := stepPoller link db p2
    runSchedule link r.1 p1 r.2 sched

/-- A schedule is an interleaving of the two updates when it gives each poller exactly
the statements of its update. -/
def isInterleaving (u1 u2 : Update) (sched : List Bool) : Bool :=
  sched.count false == u1.steps && sched.count true == u2.steps

/-- The store after two pollers have applied `u1` and `u2` to `link` under `sched`. -/
def concurrentUpdates (link : GoString) (db : DB) (u1 u2 : Update) (sched : List Bool) : DB :=
  (runSchedule link db (Poller.start u1) (Poller.start u2) sched).1

/-- An update applied as one uninterrupted call. -/
def applyUpdate (db : DB) (link : GoString) : Update → DB
  | Update.incr => incrLinkCount db link
  | Update.set n => setLinkCount db link n


/-! ## Header values with a `filename` directive -/

/-- The pieces `ps`, each followed by a semicolon (byte 59). -/
def joinPieces : List GoString → GoString
  | [] => []
  | p :: ps => p ++ 59 :: joinPieces ps

/-- The directive `filename="report.torrent"`, double quotes included. -/
def quotedDirective : GoString := bytes "filename=\"report.torrent\""

/-- A successful fetch with status 200 whose header is `attachment; filename="report.torrent"`. -/
def envQuoted : LinkEnv :=
  ⟨GetResult.response 200 (bytes "attachment; filename=\"report.torrent\"") (some [100, 56]),
    fun _ _ _ => true⟩

/-- The same response with the header percent-escaped. -/
def envEscaped : LinkEnv :=
  ⟨GetResult.response 200 (bytes "attachment%3B+filename%3D%22report.torrent%22")
    (some [100, 56]), fun _ _ _ => true⟩

/-- A response with status 404, the header `attachment; filename=error.html` and an
HTML body; the file write succeeds. -/
def env404 : LinkEnv :=
  ⟨GetResult.response 404 (bytes "attachment; filename=error.html")
    (some (bytes "<html>not found</html>")), fun _ _ _ => true⟩

/-- A fetch that fails in the transport. -/
def envFailed : LinkEnv := ⟨GetResult.failed, fun _ _ _ => true⟩

/-- A feed descriptor for the examples. -/
def exampleSite : Site := ⟨bytes "pt", bytes "http://pt.example/rss", 600, bytes "/data/torrents"⟩

/-! ## The history of one link's count -/

/-- The count of `link` in the store after each step of a trace. -/
def countsIn (link : GoString) (t : Trace) : List Int :=
  t.map (fun p => getLinkCount p.2 link)

/-- The count of `link` after each step of `handleSite` run on an empty store for the
turns `cycles`. -/
def countHistory (site : Site) (link : GoString) (cycles : List Cycle) : List Int :=
  countsIn link (handleSiteLoop site true [] cycles).2

/-- Within the part `t` of a run that leads from store `db` to store `db1`, the count of
`link` only grows: it starts at its value in `db`, every later value is at least every
earlier one, and it ends at its value in `db1`. -/
def Rising (link : GoString) (db : DB) (t : Trace) (db1 : DB) : Prop :=
  getLinkCount db link ≤ getLinkCount db1 link
  ∧ (∀ n ∈ countsIn link t, getLinkCount db link ≤ n ∧ n ≤ getLinkCount db1 link)
  ∧ List.Pairwise (fun a b => a ≤ b) (countsIn link t)

/-! ## The counter store: basic facts -/

theorem find_append_single (db : DB) (link l : GoString) (n : Int) :
    (db ++ [(⟨l, n⟩ : Row)]).find? (fun r => decide (r.link = link))
      = match db.find? (fun r => decide (r.link = link)) with
        | some r => some r
        | none => if l = link then some ⟨l, n⟩ else none := by
  induction db with
  | nil => by_cases h : l = link <;> simp [List.find?, h]
  | cons r rs ih =>
    by_cases h : r.link = link
    · simp [List.find?, h]
    · simp only [List.cons_append, List.find?, h, decide_False]
      exact ih

theorem find_execDelete_self (db : DB) (link : GoString) :
    (execDelete db link).find? (fun r => decide (r.link = link)) = none := by
  rw [List.find?_eq_none]
  intro r hr
  simp only [execDelete, List.mem_filter] at hr
  simpa using hr.2

theorem find_execDelete_ne (db : DB) (link l : GoString) (hne : l ≠ link) :
    (execDelete db link).find? (fun r => decide (r.link = l))
      = db.find? (fun r => decide (r.link = l)) := by
  induction db with
  | nil => rfl
  | cons r rs ih =>
    have ih2 : List.find? (fun r => decide (r.link = l))
        (List.filter (fun r => !decide (r.link = link)) rs)
          = List.find? (fun r => decide (r.link = l)) rs := ih
    by_cases h : r.link = link
    · have d1 : (!decide (r.link = link)) = false := by simp [h]
      have d2 : decide (r.link = l) = false := by
        have h2 : ¬ r.link = l := fun e => hne (e ▸ h)
        simp [h2]
      rw [execDelete, List.filter_cons, List.find?_cons, d1, d2]
      exact ih2
    · have d1 : (!decide (r.link = link)) = true := by simp [h]
      rw [execDelete, List.filter_cons, d1, if_pos rfl, List.find?_cons, List.find?_cons]
      cases decide (r.link = l)
      · exact ih2
      · rfl

theorem getLinkCount_setLinkCount_self (db : DB) (link : GoString) (n : Int) :
    getLinkCount (setLinkCount db link n) link = n := by
  simp [getLinkCount, queryCount, setLinkCount, execInsert, find_append_single,
    find_execDelete_self]

theorem getLinkCount_setLinkCount_ne (db : DB) (link l : GoString) (n : Int) (hne : l ≠ link) :
    getLinkCount (setLinkCount db link n) l = getLinkCount db l := by
  have hne2 : ¬ link = l := fun e => hne e.symm
  simp only [getLinkCount, queryCount, setLinkCount, execInsert, find_append_single,
    find_execDelete_ne db link l hne]
  cases db.find? (fun r => decide (r.link = l)) <;> simp [hne2]

theorem getLinkCount_incrLinkCount_self (db : DB) (link : GoString) :
    getLinkCount (incrLinkCount db link) link = wrapInt64 (getLinkCount db link + 1) := by
  simp [incrLinkCount, getLinkCount_setLinkCount_self]

theorem getLinkCount_incrLinkCount_ne (db : DB) (link l : GoString) (hne : l ≠ link) :
    getLinkCount (incrLinkCount db link) l = getLinkCount db l := by
  simp [incrLinkCount, getLinkCount_setLinkCount_ne db link l _ hne]

theorem rowsOf_execDelete_self (db : DB) (link : GoString) :
    rowsOf (execDelete db link) link = [] := by
  simp [rowsOf, execDelete, List.filter_filter]

theorem rowsOf_setLinkCount_self (db : DB) (link : GoString) (n : Int) :
    rowsOf (setLinkCount db link n) link = [⟨link, n⟩] := by
  have h := rowsOf_execDelete_self db link
  simp only [rowsOf] at h
  simp [rowsOf, setLinkCount, execInsert, List.filter_append, h]

theorem getLinkCount_of_rowsOf_nil (db : DB) (link : GoString) (h : rowsOf db link = []) :
    getLinkCount db link = 0 := by
  have hf : db.find? (fun r => decide (r.link = link)) = none := by
    rw [List.find?_eq_none]
    intro r hr
    have : r ∉ rowsOf db link := by rw [h]; simp
    simpa [rowsOf, List.mem_filter, hr] using this
  simp [getLinkCount, queryCount, hf]

theorem wrapInt64_small (x : Int) (h1 : -9223372036854775808 ≤ x) (h2 : x < 9223372036854775808) :
    wrapInt64 x = x := by
  unfold wrapInt64
  omega

/-! ## The eligible list -/

theorem newLinksLoop_eq (db : DB) (links acc : List GoString) :
    newLinksLoop db links acc
      = acc ++ links.filter (fun l => decide (getLinkCount db l < LINK_RETRY_TIMES)) := by
  induction links generalizing acc with
  | nil => simp [newLinksLoop]
  | cons l ls ih =>
    by_cases h : getLinkCount db l < LINK_RETRY_TIMES
    · simp [newLinksLoop, h, ih, List.filter]
    · simp [newLinksLoop, h, ih, List.filter]

theorem newLinks_eq_filter (db : DB) (links : List GoString) :
    newLinks db links
      = links.filter (fun l => decide (getLinkCount db l < LINK_RETRY_TIMES)) := by
  simp [newLinks, newLinksLoop_eq]

/-! ## Claims about the store, the eligible list and the timeout -/

/-- C5: the eligible list `newLinks` built by `handleSite` is the feed's list filtered by
`getLinkCount < LINK_RETRY_TIMES` (order kept, duplicates kept); for `[A, B, C]` with
`A` absent from the store, `B` at count 2 and `C` at count 3 it is `[A, B]`. -/
theorem C5_newLinks_is_filter :
    (∀ (db : DB) (links : List GoString),
      newLinks db links
        = links.filter (fun l => decide (getLinkCount db l < LINK_RETRY_TIMES)))
    ∧ (∀ (db : DB) (A B C : GoString),
        rowsOf db A = [] → getLinkCount db B = 2 → getLinkCount db C = 3 →
        newLinks db [A, B, C] = [A, B]) := by
  refine ⟨newLinks_eq_filter, ?_⟩
  intro db A B C hA hB hC
  have hA0 := getLinkCount_of_rowsOf_nil db A hA
  simp [newLinks_eq_filter, List.filter, hA0, hB, hC, LINK_RETRY_TIMES]

/-- Witness of C5 on a store holding `B` at 2 and `C` at 3. -/
theorem C5_newLinks_is_filter_witness :
    newLinks [⟨bytes "B", 2⟩, ⟨bytes "C", 3⟩] [bytes "A", bytes "B", bytes "C"]
      = [bytes "A", bytes "B"] :=
  C5_newLinks_is_filter.2 [⟨bytes "B", 2⟩, ⟨bytes "C", 3⟩] (bytes "A") (bytes "B") (bytes "C")
    (by decide) (by decide) (by decide)

/-- C7: `getLinkCount` is 0 when the table has no row for the link; after
`setLinkCount link n` it is `n`; after a second `setLinkCount link n` it is still `n`
and the table holds exactly one row for the link.  The table may start with any
rows, several for one link included. -/
theorem C7_set_then_get (db : DB) (link : GoString) (n : Int) :
    (rowsOf db link = [] → getLinkCount db link = 0)
    ∧ getLinkCount (setLinkCount db link n) link = n
    ∧ getLinkCount (setLinkCount (setLinkCount db link n) link n) link = n
    ∧ rowsOf (setLinkCount (setLinkCount db link n) link n) link = [⟨link, n⟩] :=
  ⟨getLinkCount_of_rowsOf_nil db link, getLinkCount_setLinkCount_self db link n,
    getLinkCount_setLinkCount_self _ link n, rowsOf_setLinkCount_self _ link n⟩

/-- Witness of C7 on a table that holds two rows for another link. -/
theorem C7_set_then_get_witness :
    rowsOf [⟨bytes "B", 1⟩, ⟨bytes "B", 2⟩] (bytes "A") = []
    ∧ getLinkCount [⟨bytes "B", 1⟩, ⟨bytes "B", 2⟩] (bytes "A") = 0 :=
  ⟨by decide, (C7_set_then_get [⟨bytes "B", 1⟩, ⟨bytes "B", 2⟩] (bytes "A") 5).1 (by decide)⟩

/-- C9, the claim at `t = 3600`: the claim says the effective timeout is 3600, `main`
chooses the default 30. -/
theorem C9_counterexample_3600 : timeout 3600 = 30 ∧ timeout 3600 ≠ 3600 := by
  decide

/-- C9 as amended: the effective timeout is `t` when `0 < t < 3600` and the default 30
otherwise, `t = 3600` included. -/
theorem C9_timeout_open_interval (t : Int) :
    ((0 < t ∧ t < 3600) → timeout t = t) ∧ (¬ (0 < t ∧ t < 3600) → timeout t = 30) := by
  constructor
  · intro h; simp [timeout, h]
  · intro h; simp [timeout, h]

/-- Witness of C9 as amended, at `t = 3599`. -/
theorem C9_timeout_open_interval_witness : (0 : Int) < 3599 ∧ (3599 : Int) < 3600 ∧ timeout 3599 = 3599 :=
  ⟨by decide, by decide, (C9_timeout_open_interval 3599).1 ⟨by decide, by decide⟩⟩


/-! ## `strings.Split` and `strings.TrimSpace` on a header value -/

theorem Split_ne_nil (s : GoString) : Split s ≠ [] := by
  cases s with
  | nil => simp [Split]
  | cons c cs =>
    by_cases h : c = 59
    · simp [Split, h]
    · simp only [Split, h, if_false]
      cases Split cs <;> simp

theorem Split_append_sep (p r : GoString) (hp : 59 ∉ p) :
    Split (p ++ 59 :: r) = p :: Split r := by
  induction p with
  | nil => simp [Split]
  | cons c cs ih =>
    have hc : c ≠ 59 := fun e => hp (by simp [e])
    have hcs : 59 ∉ cs := fun e => hp (by simp [e])
    show Split (c :: (cs ++ 59 :: r)) = _
    simp only [Split, hc, if_false, ih hcs]

theorem Split_no_sep (p : GoString) (hp : 59 ∉ p) : Split p = [p] := by
  induction p with
  | nil => simp [Split]
  | cons c cs ih =>
    have hc : c ≠ 59 := fun e => hp (by simp [e])
    have hcs : 59 ∉ cs := fun e => hp (by simp [e])
    simp only [Split, hc, if_false, ih hcs]

theorem Split_joinPieces (ps : List GoString) (s : GoString) (hps : ∀ p ∈ ps, 59 ∉ p) :
    Split (joinPieces ps ++ s) = ps ++ Split s := by
  induction ps with
  | nil => simp [joinPieces]
  | cons p ps ih =>
    have h1 : 59 ∉ p := hps p (by simp)
    have h2 : ∀ q ∈ ps, 59 ∉ q := fun q hq => hps q (by simp [hq])
    simp only [joinPieces, List.append_assoc, List.cons_append]
    rw [Split_append_sep p _ h1, ih h2]

theorem Split_piece_rest (p rest : GoString) (hp : 59 ∉ p)
    (hrest : rest = [] ∨ rest.head? = some 59) :
    ∃ tail, Split (p ++ rest) = p :: tail := by
  rcases hrest with h | h
  · subst h
    exact ⟨[], by simpa using Split_no_sep p hp⟩
  · cases rest with
    | nil => simp at h
    | cons c r =>
      have hc : c = 59 := by simpa using h
      subst hc
      exact ⟨Split r, Split_append_sep p r hp⟩

theorem asciiSpace_lt (c : Nat) (h : asciiSpace c = true) : c < 0x80 ∧ c ≠ 59 := by
  simp only [asciiSpace, Bool.or_eq_true, beq_iff_eq] at h
  omega

theorem trimSpaceStop_spaces (ws r : GoString) (hws : ∀ c ∈ ws, asciiSpace c = true) :
    trimSpaceStop (ws ++ r) = trimSpaceStop r := by
  induction ws with
  | nil => rfl
  | cons c cs ih =>
    have hc : asciiSpace c = true := hws c (by simp)
    have hlt : ¬ 0x80 ≤ c := by have := (asciiSpace_lt c hc).1; omega
    have hcs : ∀ d ∈ cs, asciiSpace d = true := fun d hd => hws d (by simp [hd])
    show trimSpaceStop (c :: (cs ++ r)) = _
    simp only [trimSpaceStop, hlt, hc, if_false, if_true, ih hcs]

theorem TrimSpace_spaces (ws r : GoString) (hws : ∀ c ∈ ws, asciiSpace c = true) :
    TrimSpace (ws ++ r) = TrimSpace r := by
  induction ws with
  | nil => rfl
  | cons c cs ih =>
    have hc : asciiSpace c = true := hws c (by simp)
    have hlt : ¬ 0x80 ≤ c := by have := (asciiSpace_lt c hc).1; omega
    have hcs : ∀ d ∈ cs, asciiSpace d = true := fun d hd => hws d (by simp [hd])
    show TrimSpace (c :: (cs ++ r)) = _
    simp only [TrimSpace, hlt, hc, if_false, if_true, ih hcs]

/-- Function `TrimSpace` strips ASCII spaces around a piece that starts and ends with an ASCII
byte that is not a space. -/
theorem TrimSpace_padded (ws1 ws2 : GoString) (c : Nat) (d : GoString)
    (hws1 : ∀ b ∈ ws1, asciiSpace b = true) (hws2 : ∀ b ∈ ws2, asciiSpace b = true)
    (hc : c < 0x80) (hcs : asciiSpace c = false)
    (hstop : trimSpaceStop (c :: d).reverse = c :: d) :
    TrimSpace (ws1 ++ (c :: d) ++ ws2) = c :: d := by
  rw [List.append_assoc, TrimSpace_spaces ws1 _ hws1]
  have hlt : ¬ 0x80 ≤ c := by omega
  show TrimSpace (c :: (d ++ ws2)) = _
  simp only [TrimSpace, hlt, hcs, if_false, Bool.false_eq_true]
  have hrev : (c :: (d ++ ws2)).reverse = ws2.reverse ++ (c :: d).reverse := by simp
  rw [hrev, trimSpaceStop_spaces _ _ (fun b hb => hws2 b (by simpa using hb)), hstop]

theorem getFileNameLoop_skip (before rest : List GoString)
    (hb : ∀ p ∈ before, HasPrefix (TrimSpace p) (bytes "filename=") = false) :
    getFileNameLoop (before ++ rest) = getFileNameLoop rest := by
  induction before with
  | nil => rfl
  | cons p ps ih =>
    have h1 := hb p (by simp)
    have h2 : ∀ q ∈ ps, HasPrefix (TrimSpace q) (bytes "filename=") = false :=
      fun q hq => hb q (by simp [hq])
    show getFileNameLoop (p :: (ps ++ rest)) = _
    simp only [getFileNameLoop, h1, Bool.false_eq_true, if_false, ih h2]

/-- The file name `getFileName` extracts from a value whose first `filename=`
directive is `filename="report.torrent"`: the quotes stay. -/
theorem getFileName_quoted (before : List GoString) (ws1 ws2 rest : GoString)
    (hbefore : ∀ p ∈ before, 59 ∉ p ∧ HasPrefix (TrimSpace p) (bytes "filename=") = false)
    (hws1 : ∀ c ∈ ws1, asciiSpace c = true) (hws2 : ∀ c ∈ ws2, asciiSpace c = true)
    (hrest : rest = [] ∨ rest.head? = some 59) :
    getFileName (joinPieces before ++ (ws1 ++ quotedDirective ++ ws2) ++ rest)
      = bytes "\"report.torrent\"" := by
  have hd : quotedDirective = 102 :: bytes "ilename=\"report.torrent\"" := by decide
  have hpiece : 59 ∉ ws1 ++ quotedDirective ++ ws2 := by
    intro hmem
    simp only [List.mem_append] at hmem
    rcases hmem with (h | h) | h
    · exact (asciiSpace_lt 59 (hws1 59 h)).2 rfl
    · revert h; decide
    · exact (asciiSpace_lt 59 (hws2 59 h)).2 rfl
  obtain ⟨tail, htail⟩ := Split_piece_rest _ rest hpiece hrest
  have htrim : TrimSpace (ws1 ++ quotedDirective ++ ws2) = quotedDirective := by
    rw [hd]
    exact TrimSpace_padded ws1 ws2 102 _ hws1 hws2 (by decide) (by decide) (by decide)
  unfold getFileName
  rw [List.append_assoc, Split_joinPieces before _ (fun p hp => (hbefore p hp).1), htail,
    getFileNameLoop_skip before _ (fun p hp => (hbefore p hp).2)]
  simp only [getFileNameLoop, htrim]
  have hpre : HasPrefix quotedDirective (bytes "filename=") = true := by decide
  rw [if_pos hpre]
  decide

/-! ## Claims about `handleLink` -/

/-- C1, the claim at the header `attachment; filename="report.torrent"`, raw and
percent-escaped: the claim says the file name is `report.torrent`; `handleLink` passes
the name with both double quotes, 16 bytes, to `WriteFile`. -/
theorem C1_counterexample_quotes_kept :
    (handleLink exampleSite (bytes "http://pt.example/dl/1") envQuoted).writeCall
        = some ⟨bytes "/data/torrents", bytes "\"report.torrent\"", [100, 56]⟩
    ∧ (handleLink exampleSite (bytes "http://pt.example/dl/1") envEscaped).writeCall
        = some ⟨bytes "/data/torrents", bytes "\"report.torrent\"", [100, 56]⟩
    ∧ bytes "\"report.torrent\"" ≠ bytes "report.torrent"
    ∧ (bytes "\"report.torrent\"").length = 16 := by
  decide

/-- C1 as amended: for a successful response whose header value, after
`url.QueryUnescape` (or raw when that fails), has `filename="report.torrent"` as its
first `filename=` directive, possibly padded with ASCII spaces, the file name that
`handleLink` joins onto the download directory is the text after `filename=`
unchanged: `"report.torrent"` with both double quotes. -/
theorem C1_filename_is_text_after_directive (site : Site) (link : GoString) (env : LinkEnv)
    (status : Nat) (header data : GoString)
    (before : List GoString) (ws1 ws2 rest : GoString)
    (hget : env.get = GetResult.response status header (some data))
    (hbefore : ∀ p ∈ before, 59 ∉ p ∧ HasPrefix (TrimSpace p) (bytes "filename=") = false)
    (hws1 : ∀ c ∈ ws1, asciiSpace c = true) (hws2 : ∀ c ∈ ws2, asciiSpace c = true)
    (hrest : rest = [] ∨ rest.head? = some 59)
    (hvalue : unescapeOrRaw header
      = joinPieces before ++ (ws1 ++ quotedDirective ++ ws2) ++ rest) :
    (handleLink site link env).writeCall
      = some ⟨site.DownloadDir, bytes "\"report.torrent\"", data⟩ := by
  have hname := getFileName_quoted before ws1 ws2 rest hbefore hws1 hws2 hrest
  rw [← hvalue] at hname
  unfold handleLink
  rw [hget]
  simp only [hname]
  split <;> rfl

/-- Witness of C1 as amended: the percent-escaped header
`attachment;+filename%3D%22report.torrent%22;+size%3D2`. -/
theorem C1_filename_is_text_after_directive_witness :
    (handleLink exampleSite (bytes "http://pt.example/dl/1")
      ⟨GetResult.response 200 (bytes "attachment;+filename%3D%22report.torrent%22;+size%3D2")
        (some [100, 56]), fun _ _ _ => true⟩).writeCall
      = some ⟨bytes "/data/torrents", bytes "\"report.torrent\"", [100, 56]⟩ :=
  C1_filename_is_text_after_directive exampleSite (bytes "http://pt.example/dl/1")
    ⟨GetResult.response 200 (bytes "attachment;+filename%3D%22report.torrent%22;+size%3D2")
      (some [100, 56]), fun _ _ _ => true⟩
    200 (bytes "attachment;+filename%3D%22report.torrent%22;+size%3D2") [100, 56]
    [bytes "attachment"] [32] [] (bytes "; size=2")
    rfl (by decide) (by decide) (by decide) (by decide) (by decide)


/-- C2, the claim at a response with status 404 whose body is read and saved: the claim
says `handleLink` returns an error and the count goes from 0 to 1; `handleLink`
returns nil and `handleSite` sets the count to `LINK_RETRY_TIMES`. -/
theorem C2_counterexample_status_404 :
    handleLink exampleSite (bytes "http://pt.example/dl/1") env404
        = ⟨none, some ⟨bytes "/data/torrents", bytes "error.html",
            bytes "<html>not found</html>"⟩⟩
    ∧ getLinkCount
        (downloadLoop exampleSite (fun _ _ => env404) 0 [] [bytes "http://pt.example/dl/1"]).1
        (bytes "http://pt.example/dl/1") = LINK_RETRY_TIMES
    ∧ getLinkCount
        (downloadLoop exampleSite (fun _ _ => env404) 0 [] [bytes "http://pt.example/dl/1"]).1
        (bytes "http://pt.example/dl/1") ≠ getLinkCount [] (bytes "http://pt.example/dl/1") + 1 := by
  decide

/-- C2 as amended: `handleLink` returns an error exactly when `Get` returns an error,
reading the body fails or writing the file fails; the status code of a response plays
no part.  When `handleLink` returns an error, `handleSite` increments the count of an
eligible link by exactly 1; when it returns nil (as for a 404 response that is read
and saved), `handleSite` sets the count to `LINK_RETRY_TIMES`. -/
theorem C2_failure_transition (site : Site) (link : GoString) (envs : Nat → GoString → LinkEnv)
    (i : Nat) (db : DB) :
    ((handleLink site link (envs i link)).err ≠ none ↔
      ((envs i link).get = GetResult.failed
        ∨ (∃ status header, (envs i link).get = GetResult.response status header none)
        ∨ (∃ status header data,
            (envs i link).get = GetResult.response status header (some data)
            ∧ (envs i link).writeFile site.DownloadDir (getFileName (unescapeOrRaw header)) data
                = false)))
    ∧ ((handleLink site link (envs i link)).err ≠ none →
        -9223372036854775808 ≤ getLinkCount db link →
        getLinkCount db link < LINK_RETRY_TIMES →
        getLinkCount (downloadLoop site envs i db [link]).1 link = getLinkCount db link + 1)
    ∧ ((handleLink site link (envs i link)).err = none →
        getLinkCount (downloadLoop site envs i db [link]).1 link = LINK_RETRY_TIMES) := by
  refine ⟨?_, ?_, ?_⟩
  · unfold handleLink
    cases hg : (envs i link).get with
    | failed => simp
    | response status header body =>
      cases body with
      | none => simp
      | some data =>
        by_cases hw : (envs i link).writeFile site.DownloadDir
            (getFileName (unescapeOrRaw header)) data = true
        · simp [hw]
        · have hf : (envs i link).writeFile site.DownloadDir
              (getFileName (unescapeOrRaw header)) data = false := by simpa using hw
          simp only [hf, Bool.false_eq_true, if_false, ne_eq, reduceCtorEq, not_false_eq_true,
            false_or, true_iff]
          exact Or.inr ⟨status, header, data, rfl, hf⟩
  · intro herr hlo hhi
    have hw : wrapInt64 (getLinkCount db link + 1) = getLinkCount db link + 1 := by
      apply wrapInt64_small
      · omega
      · simp only [LINK_RETRY_TIMES] at hhi; omega
    cases he : (handleLink site link (envs i link)).err with
    | none => exact absurd he herr
    | some e =>
      simp only [downloadLoop, he]
      rw [getLinkCount_incrLinkCount_self, hw]
  · intro hok
    simp only [downloadLoop, hok]
    exact getLinkCount_setLinkCount_self db link LINK_RETRY_TIMES

/-- Witness of C2 as amended: a transport failure on a link at count 2. -/
theorem C2_failure_transition_witness :
    getLinkCount
      (downloadLoop exampleSite (fun _ _ => envFailed) 0 [⟨bytes "A", 2⟩] [bytes "A"]).1
      (bytes "A") = getLinkCount [⟨bytes "A", 2⟩] (bytes "A") + 1 :=
  (C2_failure_transition exampleSite (bytes "A") (fun _ _ => envFailed) 0 [⟨bytes "A", 2⟩]).2.1
    (by decide) (by decide) (by decide)

/-- C8 at a site whose download directory cannot be created and whose feed lists one
link: after `finish <- 1` the function goes on into the loop; it fetches the feed,
reads the counter of the link, downloads it and writes the counter. -/
theorem C8_runs_on_after_finish :
    (handleSite exampleSite false []
        [⟨FeedResult.links [bytes "A"], fun _ _ => envQuoted⟩]).2
      = [(Event.mkdirAll false, []), (Event.finish, []), (Event.fetchRss, []),
          (Event.getLinkCount (bytes "A"), []), (Event.handleLink (bytes "A"), []),
          (Event.setLinkCount (bytes "A") 3, [⟨bytes "A", 3⟩])] := by
  decide

/-- C10, the claim at two pollers that each run `incrLinkCount` on a link absent from
the store: applied one after the other the two updates give count 2 in one row; when
both `SELECT`s run first the final count is 1 (an update is lost), and when the two
`DELETE`s run before the two `INSERT`s the table ends with two rows. -/
theorem C10_counterexample_lost_update :
    isInterleaving Update.incr Update.incr [false, true, false, false, true, true] = true
    ∧ getLinkCount (concurrentUpdates (bytes "A") [] Update.incr Update.incr
        [false, true, false, false, true, true]) (bytes "A") = 1
    ∧ getLinkCount (applyUpdate (applyUpdate [] (bytes "A") Update.incr) (bytes "A") Update.incr)
        (bytes "A") = 2
    ∧ isInterleaving Update.incr Update.incr [false, true, false, true, false, true] = true
    ∧ (rowsOf (concurrentUpdates (bytes "A") [] Update.incr Update.incr
        [false, true, false, true, false, true]) (bytes "A")).length = 2 := by
  decide

/-- One update run without interruption from its start: the statements of the poller
are those of the function of `main.go`. -/
theorem runSchedule_one (link : GoString) (db : DB) (u : Update) (q : Poller) :
    (runSchedule link db (Poller.start u) q (List.replicate u.steps false)).1
        = applyUpdate db link u
    ∧ (runSchedule link db (Poller.start u) q (List.replicate u.steps false)).2.2 = q
    ∧ (runSchedule link db q (Poller.start u) (List.replicate u.steps true)).1
        = applyUpdate db link u
    ∧ (runSchedule link db q (Poller.start u) (List.replicate u.steps true)).2.1 = q := by
  cases u with
  | incr =>
    simp [Update.steps, List.replicate, runSchedule, stepPoller, Poller.start, applyUpdate,
      incrLinkCount, setLinkCount]
  | set n =>
    simp [Update.steps, List.replicate, runSchedule, stepPoller, Poller.start, applyUpdate,
      setLinkCount]

theorem runSchedule_append (link : GoString) (db : DB) (p1 p2 : Poller) (s1 s2 : List Bool) :
    runSchedule link db p1 p2 (s1 ++ s2)
      = runSchedule link (runSchedule link db p1 p2 s1).1 (runSchedule link db p1 p2 s1).2.1
          (runSchedule link db p1 p2 s1).2.2 s2 := by
  induction s1 generalizing db p1 p2 with
  | nil => rfl
  | cons b s ih =>
    cases b
    · show runSchedule link db p1 p2 (false :: (s ++ s2)) = _
      simp only [runSchedule, ih]
    · show runSchedule link db p1 p2 (true :: (s ++ s2)) = _
      simp only [runSchedule, ih]

theorem rowsOf_applyUpdate (db : DB) (link : GoString) (u : Update) :
    (rowsOf (applyUpdate db link u) link).length = 1 := by
  cases u with
  | incr => simp [applyUpdate, incrLinkCount, rowsOf_setLinkCount_self]
  | set n => simp [applyUpdate, rowsOf_setLinkCount_self]

/-- C10 as amended: under the two schedules in which the pollers do not overlap (all
store statements of one update run before those of the other) the final store is the
result of applying the two updates one after the other in that order, and the table
ends with exactly one record for the link.  The program has no lock; nothing is
claimed for the other interleavings. -/
theorem C10_serial_schedules (link : GoString) (db : DB) (u1 u2 : Update) :
    isInterleaving u1 u2 (List.replicate u1.steps false ++ List.replicate u2.steps true) = true
    ∧ isInterleaving u1 u2 (List.replicate u2.steps true ++ List.replicate u1.steps false) = true
    ∧ concurrentUpdates link db u1 u2
          (List.replicate u1.steps false ++ List.replicate u2.steps true)
        = applyUpdate (applyUpdate db link u1) link u2
    ∧ concurrentUpdates link db u1 u2
          (List.replicate u2.steps true ++ List.replicate u1.steps false)
        = applyUpdate (applyUpdate db link u2) link u1
    ∧ (rowsOf (concurrentUpdates link db u1 u2
          (List.replicate u1.steps false ++ List.replicate u2.steps true)) link).length = 1
    ∧ (rowsOf (concurrentUpdates link db u1 u2
          (List.replicate u2.steps true ++ List.replicate u1.steps false)) link).length = 1 := by
  have h12 : concurrentUpdates link db u1 u2
      (List.replicate u1.steps false ++ List.replicate u2.steps true)
        = applyUpdate (applyUpdate db link u1) link u2 := by
    unfold concurrentUpdates
    rw [runSchedule_append]
    have a := runSchedule_one link db u1 (Poller.start u2)
    rw [a.1, a.2.1]
    exact (runSchedule_one link _ u2 _).2.2.1
  have h21 : concurrentUpdates link db u1 u2
      (List.replicate u2.steps true ++ List.replicate u1.steps false)
        = applyUpdate (applyUpdate db link u2) link u1 := by
    unfold concurrentUpdates
    rw [runSchedule_append]
    have a := runSchedule_one link db u2 (Poller.start u1)
    rw [a.2.2.1, a.2.2.2]
    exact (runSchedule_one link _ u1 _).1
  refine ⟨?_, ?_, h12, h21, ?_, ?_⟩
  · cases u1 <;> cases u2 <;> rfl
  · cases u1 <;> cases u2 <;> rfl
  · rw [h12]; exact rowsOf_applyUpdate _ link u2
  · rw [h21]; exact rowsOf_applyUpdate _ link u1


/-! ## The download loop and one link's count -/

/-- A loop over links other than `link` leaves the count of `link` as it is, in every
store of the trace, and never calls `handleLink` on it. -/
theorem downloadLoop_not_mem (site : Site) (envs : Nat → GoString → LinkEnv) (link : GoString)
    (links : List GoString) (i : Nat) (db : DB) (h : link ∉ links) :
    getLinkCount (downloadLoop site envs i db links).1 link = getLinkCount db link
    ∧ (∀ p ∈ (downloadLoop site envs i db links).2,
        getLinkCount p.2 link = getLinkCount db link ∧ p.1 ≠ Event.handleLink link) := by
  induction links generalizing i db with
  | nil => simp [downloadLoop]
  | cons l ls ih =>
    have hne : link ≠ l := fun e => h (by simp [e])
    have hls : link ∉ ls := fun e => h (by simp [e])
    have hev : Event.handleLink l ≠ Event.handleLink link := by
      intro e; injection e with e; exact hne e.symm
    cases he : (handleLink site l (envs i l)).err with
    | some e =>
      have hc := getLinkCount_incrLinkCount_ne db l link hne
      have ih1 := ih (i + 1) (incrLinkCount db l) hls
      simp only [downloadLoop, he]
      refine ⟨by rw [ih1.1, hc], ?_⟩
      intro p hp
      simp only [List.mem_cons] at hp
      rcases hp with hp | hp | hp
      · subst hp; exact ⟨rfl, hev⟩
      · subst hp; exact ⟨hc, by simp⟩
      · have := ih1.2 p hp
        exact ⟨by rw [this.1, hc], this.2⟩
    | none =>
      have hc := getLinkCount_setLinkCount_ne db l link LINK_RETRY_TIMES hne
      have ih1 := ih (i + 1) (setLinkCount db l LINK_RETRY_TIMES) hls
      simp only [downloadLoop, he]
      refine ⟨by rw [ih1.1, hc], ?_⟩
      intro p hp
      simp only [List.mem_cons] at hp
      rcases hp with hp | hp | hp
      · subst hp; exact ⟨rfl, hev⟩
      · subst hp; exact ⟨hc, by simp⟩
      · have := ih1.2 p hp
        exact ⟨by rw [this.1, hc], this.2⟩

theorem not_mem_newLinks (db : DB) (link : GoString) (links : List GoString)
    (h : LINK_RETRY_TIMES ≤ getLinkCount db link) : link ∉ newLinks db links := by
  rw [newLinks_eq_filter]
  intro hm
  have := (List.mem_filter.1 hm).2
  simp only [decide_eq_true_eq] at this
  omega

/-- A turn of the loop leaves a link at or above `LINK_RETRY_TIMES` alone. -/
theorem pollCycle_exhausted (site : Site) (firstTurn : Bool) (db : DB) (c : Cycle)
    (link : GoString) (h : LINK_RETRY_TIMES ≤ getLinkCount db link) :
    getLinkCount (pollCycle site firstTurn db c).1 link = getLinkCount db link
    ∧ (∀ p ∈ (pollCycle site firstTurn db c).2, p.1 ≠ Event.handleLink link) := by
  unfold pollCycle
  cases hf : c.feed with
  | links ls =>
    have hd := downloadLoop_not_mem site c.env link (newLinks db ls) 0 db
      (not_mem_newLinks db link ls h)
    refine ⟨hd.1, ?_⟩
    intro p hp
    simp only [List.mem_append, List.mem_cons, List.mem_map] at hp
    rcases hp with (hp | hp | ⟨l, _, hp⟩) | hp
    · cases firstTurn
      · simp only [Bool.false_eq_true, if_false, List.mem_singleton] at hp
        subst hp; simp
      · simp at hp
    · subst hp; simp
    · subst hp; simp
    · exact (hd.2 p hp).2
  | fetchError =>
    refine ⟨rfl, ?_⟩
    intro p hp
    simp only [List.mem_append, List.mem_singleton] at hp
    rcases hp with hp | hp
    · cases firstTurn
      · simp only [Bool.false_eq_true, if_false, List.mem_singleton] at hp
        subst hp; simp
      · simp at hp
    · subst hp; simp
  | readError =>
    refine ⟨rfl, ?_⟩
    intro p hp
    simp only [List.mem_append, List.mem_singleton] at hp
    rcases hp with hp | hp
    · cases firstTurn
      · simp only [Bool.false_eq_true, if_false, List.mem_singleton] at hp
        subst hp; simp
      · simp at hp
    · subst hp; simp
  | parseError =>
    refine ⟨rfl, ?_⟩
    intro p hp
    simp only [List.mem_append, List.mem_singleton] at hp
    rcases hp with hp | hp
    · cases firstTurn
      · simp only [Bool.false_eq_true, if_false, List.mem_singleton] at hp
        subst hp; simp
      · simp at hp
    · subst hp; simp

theorem handleSiteLoop_exhausted (site : Site) (link : GoString) (cycles : List Cycle)
    (firstTurn : Bool) (db : DB) (h : LINK_RETRY_TIMES ≤ getLinkCount db link) :
    getLinkCount (handleSiteLoop site firstTurn db cycles).1 link = getLinkCount db link
    ∧ (∀ p ∈ (handleSiteLoop site firstTurn db cycles).2, p.1 ≠ Event.handleLink link) := by
  induction cycles generalizing firstTurn db with
  | nil => simp [handleSiteLoop]
  | cons c cs ih =>
    have h1 := pollCycle_exhausted site firstTurn db c link h
    have h2 := ih false (pollCycle site firstTurn db c).1 (by rw [h1.1]; exact h)
    simp only [handleSiteLoop]
    refine ⟨by rw [h2.1, h1.1], ?_⟩
    intro p hp
    rcases List.mem_append.1 hp with hp | hp
    · exact h1.2 p hp
    · exact h2.2 p hp

/-- C4: once the stored count of a link is at least `LINK_RETRY_TIMES` at the end of a
turn, then in every later turn of the loop, whatever the feeds list and whatever the
outcomes of the attempts, the link is not in `newLinks` and `handleLink` is not
called on it. -/
theorem C4_exhausted_never_retried (site : Site) (link : GoString) (db : DB)
    (firstTurn : Bool) (cycles : List Cycle)
    (h : LINK_RETRY_TIMES ≤ getLinkCount db link) :
    (∀ p ∈ (handleSiteLoop site firstTurn db cycles).2, p.1 ≠ Event.handleLink link)
    ∧ (∀ (earlier later : List Cycle) (c : Cycle) (links : List GoString),
        cycles = earlier ++ c :: later → c.feed = FeedResult.links links →
        link ∉ newLinks (handleSiteLoop site firstTurn db earlier).1 links) := by
  refine ⟨(handleSiteLoop_exhausted site link cycles firstTurn db h).2, ?_⟩
  intro earlier later c links _ _
  apply not_mem_newLinks
  rw [(handleSiteLoop_exhausted site link earlier firstTurn db h).1]
  exact h

/-- Witness of C4: a link pinned at 3 by a success, then two turns that list it again. -/
theorem C4_exhausted_never_retried_witness :
    LINK_RETRY_TIMES ≤ getLinkCount [⟨bytes "A", 3⟩] (bytes "A")
    ∧ (∀ p ∈ (handleSiteLoop exampleSite false [⟨bytes "A", 3⟩]
        [⟨FeedResult.links [bytes "A", bytes "B"], fun _ _ => envFailed⟩,
         ⟨FeedResult.links [bytes "B", bytes "A"], fun _ _ => envQuoted⟩]).2,
      p.1 ≠ Event.handleLink (bytes "A")) :=
  ⟨by decide,
    (C4_exhausted_never_retried exampleSite (bytes "A") [⟨bytes "A", 3⟩] false
      [⟨FeedResult.links [bytes "A", bytes "B"], fun _ _ => envFailed⟩,
       ⟨FeedResult.links [bytes "B", bytes "A"], fun _ _ => envQuoted⟩] (by decide)).1⟩

/-! ## Failed attempts -/

/-- A loop over links that hold `link` once, with every attempt on `link` failing,
raises the count of `link` by one `count++`. -/
theorem downloadLoop_failed_once (site : Site) (envs : Nat → GoString → LinkEnv)
    (link : GoString) (hfail : ∀ i, (handleLink site link (envs i link)).err ≠ none)
    (links : List GoString) (i : Nat) (db : DB) (h : links.count link = 1) :
    getLinkCount (downloadLoop site envs i db links).1 link
      = wrapInt64 (getLinkCount db link + 1) := by
  induction links generalizing i db with
  | nil => simp at h
  | cons l ls ih =>
    by_cases hl : l = link
    · subst hl
      have hls : l ∉ ls := by
        rw [← List.count_eq_zero]
        simpa [List.count_cons] using h
      cases he : (handleLink site l (envs i l)).err with
      | none => exact absurd he (hfail i)
      | some e =>
        simp only [downloadLoop, he]
        rw [(downloadLoop_not_mem site envs l ls (i + 1) _ hls).1,
          getLinkCount_incrLinkCount_self]
    · have hne : link ≠ l := fun e => hl e.symm
      have hls : ls.count link = 1 := by
        simpa [List.count_cons, hl] using h
      cases he : (handleLink site l (envs i l)).err with
      | some e =>
        simp only [downloadLoop, he]
        rw [ih (i + 1) _ hls, getLinkCount_incrLinkCount_ne db l link hne]
      | none =>
        simp only [downloadLoop, he]
        rw [ih (i + 1) _ hls, getLinkCount_setLinkCount_ne db l link _ hne]

/-- A turn whose feed lists an eligible link once and in which the attempt on it fails
raises its count by exactly 1. -/
theorem pollCycle_failed_once (site : Site) (firstTurn : Bool) (db : DB) (c : Cycle)
    (link : GoString) (links : List GoString) (hfeed : c.feed = FeedResult.links links)
    (hcount : links.count link = 1)
    (hfail : ∀ i, (handleLink site link (c.env i link)).err ≠ none)
    (hlo : 0 ≤ getLinkCount db link) (hhi : getLinkCount db link < LINK_RETRY_TIMES) :
    getLinkCount (pollCycle site firstTurn db c).1 link = getLinkCount db link + 1 := by
  have hnew : (newLinks db links).count link = 1 := by
    rw [newLinks_eq_filter, List.count_filter (by simpa using hhi), hcount]
  have hw : wrapInt64 (getLinkCount db link + 1) = getLinkCount db link + 1 := by
    apply wrapInt64_small
    · omega
    · simp only [LINK_RETRY_TIMES] at hhi; omega
  simp only [pollCycle, hfeed]
  rw [downloadLoop_failed_once site c.env link hfail _ 0 db hnew, hw]

/-- C6: a link `A` without a record that the feed lists once in each turn and whose
attempt fails in three consecutive turns has count 1 after the first turn, 2 after
the second and 3 after the third, and is not in `newLinks` in the fourth turn. -/
theorem C6_three_failures (site : Site) (db : DB) (A : GoString) (c1 c2 c3 : Cycle)
    (l1 l2 l3 : List GoString) (hA : rowsOf db A = [])
    (hf1 : c1.feed = FeedResult.links l1) (hf2 : c2.feed = FeedResult.links l2)
    (hf3 : c3.feed = FeedResult.links l3)
    (h1 : l1.count A = 1) (h2 : l2.count A = 1) (h3 : l3.count A = 1)
    (he1 : ∀ i, (handleLink site A (c1.env i A)).err ≠ none)
    (he2 : ∀ i, (handleLink site A (c2.env i A)).err ≠ none)
    (he3 : ∀ i, (handleLink site A (c3.env i A)).err ≠ none) :
    getLinkCount (storeAfter site db [c1]) A = 1
    ∧ getLinkCount (storeAfter site db [c1, c2]) A = 2
    ∧ getLinkCount (storeAfter site db [c1, c2, c3]) A = 3
    ∧ ∀ l4 : List GoString, A ∉ newLinks (storeAfter site db [c1, c2, c3]) l4 := by
  have h0 := getLinkCount_of_rowsOf_nil db A hA
  have s1 : getLinkCount (pollCycle site true db c1).1 A = 1 := by
    rw [pollCycle_failed_once site true db c1 A l1 hf1 h1 he1 (by omega)
      (by simp only [LINK_RETRY_TIMES]; omega), h0]
    rfl
  have s2 : getLinkCount (pollCycle site false (pollCycle site true db c1).1 c2).1 A = 2 := by
    rw [pollCycle_failed_once site false _ c2 A l2 hf2 h2 he2 (by omega)
      (by simp only [LINK_RETRY_TIMES]; omega), s1]
    rfl
  have s3 : getLinkCount (pollCycle site false
      (pollCycle site false (pollCycle site true db c1).1 c2).1 c3).1 A = 3 := by
    rw [pollCycle_failed_once site false _ c3 A l3 hf3 h3 he3 (by omega)
      (by simp only [LINK_RETRY_TIMES]; omega), s2]
    rfl
  refine ⟨s1, s2, s3, ?_⟩
  intro l4
  apply not_mem_newLinks
  show LINK_RETRY_TIMES ≤ getLinkCount (pollCycle site false
      (pollCycle site false (pollCycle site true db c1).1 c2).1 c3).1 A
  rw [s3]
  decide

/-- Witness of C6: three turns listing `A` next to another link, every fetch failing. -/
theorem C6_three_failures_witness :
    getLinkCount (storeAfter exampleSite []
      [⟨FeedResult.links [bytes "A", bytes "B"], fun _ _ => envFailed⟩,
       ⟨FeedResult.links [bytes "B", bytes "A"], fun _ _ => envFailed⟩,
       ⟨FeedResult.links [bytes "A"], fun _ _ => envFailed⟩]) (bytes "A") = 3 :=
  (C6_three_failures exampleSite [] (bytes "A")
    ⟨FeedResult.links [bytes "A", bytes "B"], fun _ _ => envFailed⟩
    ⟨FeedResult.links [bytes "B", bytes "A"], fun _ _ => envFailed⟩
    ⟨FeedResult.links [bytes "A"], fun _ _ => envFailed⟩
    [bytes "A", bytes "B"] [bytes "B", bytes "A"] [bytes "A"]
    (by decide) rfl rfl rfl (by decide) (by decide) (by decide)
    (fun _ => (by decide : (handleLink exampleSite (bytes "A") envFailed).err ≠ none))
    (fun _ => (by decide : (handleLink exampleSite (bytes "A") envFailed).err ≠ none))
    (fun _ => (by decide : (handleLink exampleSite (bytes "A") envFailed).err ≠ none))).2.2.1


/-! ## The history of a count -/

theorem countsIn_append (link : GoString) (t1 t2 : Trace) :
    countsIn link (t1 ++ t2) = countsIn link t1 ++ countsIn link t2 := by
  simp [countsIn]

theorem Rising_append (link : GoString) (db db1 db2 : DB) (t1 t2 : Trace)
    (h1 : Rising link db t1 db1) (h2 : Rising link db1 t2 db2) :
    Rising link db (t1 ++ t2) db2 := by
  obtain ⟨a1, b1, c1⟩ := h1
  obtain ⟨a2, b2, c2⟩ := h2
  refine ⟨le_trans a1 a2, ?_, ?_⟩
  · intro n hn
    rw [countsIn_append, List.mem_append] at hn
    rcases hn with hn | hn
    · exact ⟨(b1 n hn).1, le_trans (b1 n hn).2 a2⟩
    · exact ⟨le_trans a1 (b2 n hn).1, (b2 n hn).2⟩
  · rw [countsIn_append, List.pairwise_append]
    exact ⟨c1, c2, fun x hx y hy => le_trans (b1 x hx).2 (b2 y hy).1⟩

/-- Steps that leave the count of `link` as it is. -/
theorem Rising_const (link : GoString) (db db1 : DB) (t : Trace)
    (h : getLinkCount db1 link = getLinkCount db link)
    (ht : ∀ p ∈ t, getLinkCount p.2 link = getLinkCount db link) :
    Rising link db t db1 := by
  have hall : ∀ n ∈ countsIn link t, n = getLinkCount db link := by
    intro n hn
    simp only [countsIn, List.mem_map] at hn
    obtain ⟨p, hp, rfl⟩ := hn
    exact ht p hp
  refine ⟨by rw [h], ?_, ?_⟩
  · intro n hn
    rw [hall n hn, h]
    exact ⟨le_refl _, le_refl _⟩
  · apply List.Pairwise.imp_of_mem (R := fun _ _ => True)
    · intro a b ha hb _
      rw [hall a ha, hall b hb]
    · exact List.pairwise_of_forall (fun _ _ => trivial)

/-- The download loop over links that hold `link` at most once, started with the count
of `link` between 0 and `LINK_RETRY_TIMES` and below it when `link` is in the list. -/
theorem downloadLoop_rising (site : Site) (envs : Nat → GoString → LinkEnv) (link : GoString)
    (links : List GoString) (i : Nat) (db : DB)
    (hcount : links.count link ≤ 1)
    (hlo : 0 ≤ getLinkCount db link) (hhi : getLinkCount db link ≤ LINK_RETRY_TIMES)
    (helig : link ∈ links → getLinkCount db link < LINK_RETRY_TIMES) :
    Rising link db (downloadLoop site envs i db links).2 (downloadLoop site envs i db links).1
    ∧ getLinkCount (downloadLoop site envs i db links).1 link ≤ LINK_RETRY_TIMES := by
  induction links generalizing i db with
  | nil =>
    exact ⟨Rising_const link db db [] rfl (by simp), hhi⟩
  | cons l ls ih =>
    by_cases hl : l = link
    · subst hl
      have hls : l ∉ ls := by
        rw [← List.count_eq_zero]
        have : ls.count l + 1 ≤ 1 := by simpa [List.count_cons] using hcount
        omega
      have hlt := helig (by simp)
      simp only [LINK_RETRY_TIMES] at hlt hhi
      -- the store after the attempt on `l`, whichever way it went
      have key : ∀ db1 : DB, ∀ ev : Event,
          getLinkCount db l ≤ getLinkCount db1 l → getLinkCount db1 l ≤ 3 →
          Rising l db ((Event.handleLink l, db) :: (ev, db1)
              :: (downloadLoop site envs (i + 1) db1 ls).2)
            (downloadLoop site envs (i + 1) db1 ls).1
          ∧ getLinkCount (downloadLoop site envs (i + 1) db1 ls).1 l ≤ LINK_RETRY_TIMES := by
        intro db1 ev hge hle
        have hrest := downloadLoop_not_mem site envs l ls (i + 1) db1 hls
        have r2 : Rising l db1 (downloadLoop site envs (i + 1) db1 ls).2
            (downloadLoop site envs (i + 1) db1 ls).1 :=
          Rising_const l db1 _ _ hrest.1 (fun p hp => (hrest.2 p hp).1)
        have r1 : Rising l db [(Event.handleLink l, db), (ev, db1)] db1 := by
          refine ⟨hge, ?_, ?_⟩
          · intro n hn
            simp only [countsIn, List.map_cons, List.map_nil, List.mem_cons,
              List.mem_singleton, List.not_mem_nil, or_false] at hn
            rcases hn with hn | hn
            · subst hn; exact ⟨le_refl _, hge⟩
            · subst hn; exact ⟨hge, le_refl _⟩
          · simp only [countsIn, List.map_cons, List.map_nil]
            simp [hge]
        refine ⟨Rising_append l db db1 _ _ _ r1 r2, ?_⟩
        rw [hrest.1]
        simpa [LINK_RETRY_TIMES] using hle
      cases he : (handleLink site l (envs i l)).err with
      | some e =>
        simp only [downloadLoop, he]
        have hw : getLinkCount (incrLinkCount db l) l = getLinkCount db l + 1 := by
          rw [getLinkCount_incrLinkCount_self]
          apply wrapInt64_small <;> omega
        exact key (incrLinkCount db l) _ (by omega) (by omega)
      | none =>
        simp only [downloadLoop, he]
        have hs : getLinkCount (setLinkCount db l LINK_RETRY_TIMES) l = 3 :=
          getLinkCount_setLinkCount_self db l LINK_RETRY_TIMES
        exact key (setLinkCount db l LINK_RETRY_TIMES) _ (by omega) (by omega)
    · have hne : link ≠ l := fun e => hl e.symm
      have hls : ls.count link ≤ 1 := by
        simpa [List.count_cons, hl] using hcount
      have helig2 : link ∈ ls → getLinkCount db link < LINK_RETRY_TIMES :=
        fun hm => helig (by simp [hm])
      have key : ∀ db1 : DB, ∀ ev : Event,
          getLinkCount db1 link = getLinkCount db link →
          Rising link db ((Event.handleLink l, db) :: (ev, db1)
              :: (downloadLoop site envs (i + 1) db1 ls).2)
            (downloadLoop site envs (i + 1) db1 ls).1
          ∧ getLinkCount (downloadLoop site envs (i + 1) db1 ls).1 link ≤ LINK_RETRY_TIMES := by
        intro db1 ev heq
        have hrec := ih (i + 1) db1 hls (by rw [heq]; exact hlo) (by rw [heq]; exact hhi)
          (by rw [heq]; exact helig2)
        have r1 : Rising link db [(Event.handleLink l, db), (ev, db1)] db1 := by
          apply Rising_const link db db1 _ heq
          intro p hp
          simp only [List.mem_cons, List.mem_singleton, List.not_mem_nil, or_false] at hp
          rcases hp with hp | hp
          · subst hp; rfl
          · subst hp; exact heq
        exact ⟨Rising_append link db db1 _ _ _ r1 hrec.1, hrec.2⟩
      cases he : (handleLink site l (envs i l)).err with
      | some e =>
        simp only [downloadLoop, he]
        exact key (incrLinkCount db l) _ (getLinkCount_incrLinkCount_ne db l link hne)
      | none =>
        simp only [downloadLoop, he]
        exact key (setLinkCount db l LINK_RETRY_TIMES) _
          (getLinkCount_setLinkCount_ne db l link _ hne)

theorem pollCycle_rising (site : Site) (firstTurn : Bool) (db : DB) (c : Cycle)
    (link : GoString)
    (hcount : ∀ links, c.feed = FeedResult.links links → links.count link ≤ 1)
    (hlo : 0 ≤ getLinkCount db link) (hhi : getLinkCount db link ≤ LINK_RETRY_TIMES) :
    Rising link db (pollCycle site firstTurn db c).2 (pollCycle site firstTurn db c).1
    ∧ getLinkCount (pollCycle site firstTurn db c).1 link ≤ LINK_RETRY_TIMES := by
  have hsleep : ∀ p ∈ (if firstTurn then ([] : Trace) else [(Event.sleep site.Interval, db)]),
      getLinkCount p.2 link = getLinkCount db link := by
    intro p hp
    cases firstTurn
    · simp only [Bool.false_eq_true, if_false, List.mem_singleton] at hp
      subst hp; rfl
    · simp at hp
  unfold pollCycle
  cases hf : c.feed with
  | links ls =>
    have hnew : (newLinks db ls).count link ≤ 1 := by
      rw [newLinks_eq_filter]
      exact le_trans ((List.filter_sublist ls).count_le link) (hcount ls hf)
    have helig : link ∈ newLinks db ls → getLinkCount db link < LINK_RETRY_TIMES := by
      rw [newLinks_eq_filter]
      intro hm
      simpa using (List.mem_filter.1 hm).2
    have hd := downloadLoop_rising site c.env link (newLinks db ls) 0 db hnew hlo hhi helig
    refine ⟨?_, hd.2⟩
    have r0 : Rising link db
        ((if firstTurn then ([] : Trace) else [(Event.sleep site.Interval, db)])
          ++ (Event.fetchRss, db) :: ls.map (fun l => (Event.getLinkCount l, db))) db := by
      apply Rising_const link db db _ rfl
      intro p hp
      simp only [List.mem_append, List.mem_cons, List.mem_map] at hp
      rcases hp with hp | hp | ⟨l, _, hp⟩
      · exact hsleep p hp
      · subst hp; rfl
      · subst hp; rfl
    have := Rising_append link db db _ _ _ r0 hd.1
    simpa [List.append_assoc] using this
  | fetchError =>
    refine ⟨Rising_const link db db _ rfl ?_, hhi⟩
    intro p hp
    rcases List.mem_append.1 hp with hp | hp
    · exact hsleep p hp
    · simp only [List.mem_singleton] at hp; subst hp; rfl
  | readError =>
    refine ⟨Rising_const link db db _ rfl ?_, hhi⟩
    intro p hp
    rcases List.mem_append.1 hp with hp | hp
    · exact hsleep p hp
    · simp only [List.mem_singleton] at hp; subst hp; rfl
  | parseError =>
    refine ⟨Rising_const link db db _ rfl ?_, hhi⟩
    intro p hp
    rcases List.mem_append.1 hp with hp | hp
    · exact hsleep p hp
    · simp only [List.mem_singleton] at hp; subst hp; rfl

theorem handleSiteLoop_rising (site : Site) (link : GoString) (cycles : List Cycle)
    (firstTurn : Bool) (db : DB)
    (hcount : ∀ c ∈ cycles, ∀ links, c.feed = FeedResult.links links → links.count link ≤ 1)
    (hlo : 0 ≤ getLinkCount db link) (hhi : getLinkCount db link ≤ LINK_RETRY_TIMES) :
    Rising link db (handleSiteLoop site firstTurn db cycles).2
      (handleSiteLoop site firstTurn db cycles).1
    ∧ getLinkCount (handleSiteLoop site firstTurn db cycles).1 link ≤ LINK_RETRY_TIMES := by
  induction cycles generalizing firstTurn db with
  | nil => exact ⟨Rising_const link db db [] rfl (by simp), hhi⟩
  | cons c cs ih =>
    have h1 := pollCycle_rising site firstTurn db c link (hcount c (by simp)) hlo hhi
    have h2 := ih false (pollCycle site firstTurn db c).1
      (fun c2 hc2 => hcount c2 (by simp [hc2])) (le_trans hlo h1.1.1) h1.2
    simp only [handleSiteLoop]
    exact ⟨Rising_append link db _ _ _ _ h1.1 h2.1, h2.2⟩

/-! ## Claim C3 -/

/-- C3, the claim at one turn whose feed lists the link `A` three times, the first and
third attempt succeeding and the second failing: the store of an empty table holds
for `A` the counts 3, then 4, then 3 again; the count exceeds `LINK_RETRY_TIMES` and
then decreases. -/
theorem C3_counterexample_repeated_link :
    countHistory exampleSite (bytes "A")
        [⟨FeedResult.links [bytes "A", bytes "A", bytes "A"],
          fun i _ => if i = 1 then envFailed else envQuoted⟩]
      = [0, 0, 0, 0, 0, 3, 3, 4, 4, 3]
    ∧ ¬ (∀ n ∈ countHistory exampleSite (bytes "A")
          [⟨FeedResult.links [bytes "A", bytes "A", bytes "A"],
            fun i _ => if i = 1 then envFailed else envQuoted⟩], n ≤ LINK_RETRY_TIMES)
    ∧ ¬ List.Chain (fun a b => a ≤ b) 0 (countHistory exampleSite (bytes "A")
          [⟨FeedResult.links [bytes "A", bytes "A", bytes "A"],
            fun i _ => if i = 1 then envFailed else envQuoted⟩]) := by
  have hist : countHistory exampleSite (bytes "A")
      [⟨FeedResult.links [bytes "A", bytes "A", bytes "A"],
        fun i _ => if i = 1 then envFailed else envQuoted⟩]
        = [0, 0, 0, 0, 0, 3, 3, 4, 4, 3] := by decide
  rw [hist]
  refine ⟨rfl, ?_, ?_⟩
  · intro h
    exact absurd (h 4 (by simp)) (by decide)
  · intro h
    simp [List.chain_cons] at h

/-- C3 as amended: for every link and every sequence of turns of one feed run from an
empty store in which no feed list repeats that link (any outcome per attempt), the
stored count of the link after each step is at least its previous value, starting
from 0, and is never greater than `LINK_RETRY_TIMES`. -/
theorem C3_count_monotone_bounded (site : Site) (link : GoString) (cycles : List Cycle)
    (hcount : ∀ c ∈ cycles, ∀ links, c.feed = FeedResult.links links → links.count link ≤ 1) :
    List.Chain (fun a b => a ≤ b) 0 (countHistory site link cycles)
    ∧ ∀ n ∈ countHistory site link cycles, n ≤ LINK_RETRY_TIMES := by
  have h0 : getLinkCount [] link = 0 := rfl
  have h := handleSiteLoop_rising site link cycles true [] hcount (by rw [h0])
    (by rw [h0]; decide)
  obtain ⟨⟨_, hb, hp⟩, hfin⟩ := h
  constructor
  · rw [List.chain_iff_pairwise, List.pairwise_cons]
    refine ⟨?_, hp⟩
    intro n hn
    have := (hb n hn).1
    rwa [h0] at this
  · intro n hn
    exact le_trans (hb n hn).2 hfin

/-- Witness of C3 as amended: two turns listing `A` and `B`, `A` failing then succeeding. -/
theorem C3_count_monotone_bounded_witness :
    List.Chain (fun a b => a ≤ b) 0 (countHistory exampleSite (bytes "A")
      [⟨FeedResult.links [bytes "A", bytes "B"], fun _ _ => envFailed⟩,
       ⟨FeedResult.links [bytes "B", bytes "A"], fun _ _ => envQuoted⟩])
    ∧ ∀ n ∈ countHistory exampleSite (bytes "A")
      [⟨FeedResult.links [bytes "A", bytes "B"], fun _ _ => envFailed⟩,
       ⟨FeedResult.links [bytes "B", bytes "A"], fun _ _ => envQuoted⟩],
      n ≤ LINK_RETRY_TIMES :=
  C3_count_monotone_bounded exampleSite (bytes "A")
    [⟨FeedResult.links [bytes "A", bytes "B"], fun _ _ => envFailed⟩,
     ⟨FeedResult.links [bytes "B", bytes "A"], fun _ _ => envQuoted⟩]
    (by
      intro c hc links hl
      simp only [List.mem_cons, List.mem_singleton, List.not_mem_nil, or_false] at hc
      rcases hc with hc | hc
      · subst hc
        have : links = [bytes "A", bytes "B"] := by injection hl with hl; exact hl.symm
        subst this; decide
      · subst hc
        have : links = [bytes "B", bytes "A"] := by injection hl with hl; exact hl.symm
        subst this; decide)

end PtRss
